import Mathlib

/-!
Verification of the claude-intercept proxy (src/index.ts and its earlier
variant src/unnamed/part_000) against its natural-language specification.

The TypeScript source is shallowly embedded: strings are `List Char`
(chunk boundaries of the byte stream are modelled at the decoded-character
level, which is what the streaming TextDecoder delivers to the splitting
logic), JSON values are an inductive type, and the stateful telemetry
queue is explicit state passing.
-/

namespace ClaudeProxy

/-! ## JavaScript string primitives -/

/-- The character class matched by the JavaScript `\s` regex class and
removed by `String.prototype.trim` / `trimStart`. -/
def jsWhitespace (c : Char) : Bool :=
  c = ' ' ∨ c = '\t' ∨ c = '\n' ∨ c = '\r' ∨ c = '\x0b' ∨ c = '\x0c' ∨
  c = '\u00A0' ∨ c = '\uFEFF' ∨ c = '\u1680' ∨
  ('\u2000' ≤ c ∧ c ≤ '\u200A') ∨
  c = '\u2028' ∨ c = '\u2029' ∨ c = '\u202F' ∨ c = '\u205F' ∨ c = '\u3000'

/-- `String.prototype.trimStart`. -/
def jsTrimStart (cs : List Char) : List Char :=
  cs.dropWhile jsWhitespace

/-- `String.prototype.trim`. -/
def jsTrim (cs : List Char) : List Char :=
  ((cs.dropWhile jsWhitespace).reverse.dropWhile jsWhitespace).reverse

/-- `String.prototype.toLowerCase` (the headers involved are ASCII). -/
def jsToLower (s : String) : String :=
  String.mk (s.toList.map Char.toLower)

/-! ## Redactor (`redactHeaderValue`, src/index.ts lines 141-148)

The source keeps a set `SENSITIVE_HEADERS` and returns the fixed marker
for any header whose lower-cased name is in the set. -/

/-- `SENSITIVE_HEADERS` from src/index.ts line 141 (identical in the
part_000 variant, line 154). -/
def SENSITIVE_HEADERS : List String :=
  ["authorization", "proxy-authorization", "x-api-key", "cookie", "set-cookie"]

/-- `redactHeaderValue` from src/index.ts lines 143-148. -/
def redactHeaderValue (name value : String) : String :=
  if jsToLower name ∈ SENSITIVE_HEADERS then "[REDACTED]" else value

/-- The Redactor as the specification words it: the sensitive set named by
the spec contains `api-key` rather than the source's `x-api-key`.
This definition follows the spec's words, for comparison with
`redactHeaderValue` which follows the source. -/
def specSensitiveHeaders : List String :=
  ["authorization", "proxy-authorization", "api-key", "cookie", "set-cookie"]

/-- Spec-worded Redactor, to be compared against `redactHeaderValue`. -/
def specRedactHeaderValue (name value : String) : String :=
  if jsToLower name ∈ specSensitiveHeaders then "[REDACTED]" else value

/-! ## JSON values

`JSON.parse` results are modelled by an inductive type.  Numbers are
modelled as integers: no payload examined by the source's claims carries
a fractional or exponent-form number. -/

inductive Json where
  | null : Json
  | bool (b : Bool) : Json
  | num (n : Int) : Json
  | str (s : String) : Json
  | arr (elems : List Json) : Json
  | obj (fields : List (String × Json)) : Json

/-- JavaScript property access `j[k]` on a parsed JSON value: `some v` when
`j` is an object with field `k` (for duplicate keys `JSON.parse` keeps the
last one), `none` (undefined) otherwise. -/
def jsGet (j : Json) (k : String) : Option Json :=
  match j with
  | .obj fields => fields.foldl (fun acc kv => if kv.1 = k then some kv.2 else acc) none
  | _ => none

/-- JavaScript truthiness of a parsed JSON value. -/
def jsTruthy : Json → Bool
  | .null => false
  | .bool b => b
  | .num n => n ≠ 0
  | .str s => s ≠ ""
  | .arr _ => true
  | .obj _ => true

/-- `typeof v === "object"` for a parsed JSON value (`null`, arrays and
plain objects). -/
def jsTypeofObject : Json → Bool
  | .null => true
  | .arr _ => true
  | .obj _ => true
  | _ => false

/-- `Number(s)` on a string: leading/trailing whitespace stripped, empty
means 0, otherwise an optional sign and decimal digits; anything else is
NaN (`none`).  Hex, fractional and exponent forms are outside the model's
scope (no claim exercises them). -/
def jsStringToNumber (s : String) : Option Int :=
  let t := jsTrim s.toList
  if t = [] then some 0
  else
    let (sign, digits) :=
      match t with
      | '-' :: rest => ((-1 : Int), rest)
      | '+' :: rest => ((1 : Int), rest)
      | _ => ((1 : Int), t)
    if digits ≠ [] ∧ digits.all Char.isDigit then
      some (sign * (digits.foldl (fun a c => a * 10 + (c.toNat - 48 : Int)) 0))
    else none

/-- `Number(v)` on a parsed JSON value, `none` standing for NaN.  Array
operands (which JavaScript coerces through `toString`) are outside the
model's scope: no claim exercises them. -/
def jsToNumber : Json → Option Int
  | .null => some 0
  | .bool b => some (if b then 1 else 0)
  | .num n => some n
  | .str s => jsStringToNumber s
  | .arr _ => none
  | .obj _ => none

/-! ## JSON parsing (`JSON.parse`)

A recursive-descent reading of the JSON grammar, fuelled for termination.
`\u` escapes, fractional and exponent number forms are outside the model's
scope; no claim's payload uses them. -/

/-- JSON insignificant whitespace. -/
def jsonWS (c : Char) : Bool :=
  c = ' ' ∨ c = '\t' ∨ c = '\n' ∨ c = '\r'

/-- String body after the opening quote: returns the decoded characters
and the input after the closing quote. -/
def parseJsonString : List Char → Option (List Char × List Char)
  | [] => none
  | '"' :: rest => some ([], rest)
  | '\\' :: e :: rest =>
    (match e with
     | '"' => some '"'
     | '\\' => some '\\'
     | '/' => some '/'
     | 'n' => some '\n'
     | 't' => some '\t'
     | 'r' => some '\r'
     | 'b' => some '\x08'
     | 'f' => some '\x0c'
     | _ => none).bind fun c =>
      (parseJsonString rest).map fun (s, r) => (c :: s, r)
  | '\\' :: [] => none
  | c :: rest => (parseJsonString rest).map fun (s, r) => (c :: s, r)

/-- Integer JSON number at the head of the input. -/
def parseJsonNumber (cs : List Char) : Option (Int × List Char) :=
  let (sign, t) :=
    match cs with
    | '-' :: rest => ((-1 : Int), rest)
    | _ => ((1 : Int), cs)
  let digits := t.takeWhile Char.isDigit
  let rest := t.dropWhile Char.isDigit
  if digits = [] then none
  else
    match rest with
    | '.' :: _ => none
    | 'e' :: _ => none
    | 'E' :: _ => none
    | _ => some (sign * (digits.foldl (fun a c => a * 10 + (c.toNat - 48 : Int)) 0), rest)

mutual

/-- One JSON value at the head of the input (after whitespace). -/
def parseJsonVal : Nat → List Char → Option (Json × List Char)
  | 0, _ => none
  | fuel + 1, cs =>
    match cs.dropWhile jsonWS with
    | [] => none
    | c :: rest =>
      if c = 'n' then
        if rest.take 3 = ['u', 'l', 'l'] then some (.null, rest.drop 3) else none
      else if c = 't' then
        if rest.take 3 = ['r', 'u', 'e'] then some (.bool true, rest.drop 3) else none
      else if c = 'f' then
        if rest.take 4 = ['a', 'l', 's', 'e'] then some (.bool false, rest.drop 4) else none
      else if c = '"' then
        (parseJsonString rest).map fun (s, r) => (.str (String.mk s), r)
      else if c = '[' then
        match rest.dropWhile jsonWS with
        | ']' :: r => some (.arr [], r)
        | _ => (parseJsonElems fuel rest).map fun (xs, r) => (.arr xs, r)
      else if c = '{' then
        match rest.dropWhile jsonWS with
        | '}' :: r => some (.obj [], r)
        | _ => (parseJsonFields fuel rest).map fun (fs, r) => (.obj fs, r)
      else
        (parseJsonNumber (c :: rest)).map fun (n, r) => (.num n, r)

/-- Non-empty comma-separated array elements, consuming the closing `]`. -/
def parseJsonElems : Nat → List Char → Option (List Json × List Char)
  | 0, _ => none
  | fuel + 1, cs =>
    (parseJsonVal fuel cs).bind fun (v, rest) =>
      match rest.dropWhile jsonWS with
      | ',' :: r => (parseJsonElems fuel r).map fun (xs, r2) => (v :: xs, r2)
      | ']' :: r => some ([v], r)
      | _ => none

/-- Non-empty comma-separated object members, consuming the closing `}`. -/
def parseJsonFields : Nat → List Char → Option (List (String × Json) × List Char)
  | 0, _ => none
  | fuel + 1, cs =>
    match cs.dropWhile jsonWS with
    | '"' :: rest =>
      (parseJsonString rest).bind fun (k, r) =>
        match r.dropWhile jsonWS with
        | ':' :: r2 =>
          (parseJsonVal fuel r2).bind fun (v, r3) =>
            match r3.dropWhile jsonWS with
            | ',' :: r4 => (parseJsonFields fuel r4).map fun (fs, r5) => ((String.mk k, v) :: fs, r5)
            | '}' :: r4 => some ([(String.mk k, v)], r4)
            | _ => none
        | _ => none
    | _ => none

end

/-- `JSON.parse` on a whole string: `none` models a thrown `SyntaxError`. -/
def jsonParse (cs : List Char) : Option Json :=
  match parseJsonVal (cs.length + 1) cs with
  | some (v, rest) => if rest.dropWhile jsonWS = [] then some v else none
  | none => none

/-! ## SSE frame splitting (`captureSSE`, src/index.ts lines 442-551)

The decoder keeps a text buffer, appends each decoded chunk, splits the
buffer on the regex `\r?\n\r?\n` keeping the last piece as the new buffer,
and processes every earlier piece as one frame. -/

/-- One newline unit of the regexes `\r?\n\r?\n` and `\r?\n`: consumes a
leading `\r\n` or `\n`, returning the remainder. -/
def matchNL : List Char → Option (List Char)
  | [] => none
  | [c] => if c = '\n' then some [] else none
  | c1 :: c2 :: rest =>
    if c1 = '\r' then (if c2 = '\n' then some rest else none)
    else if c1 = '\n' then some (c2 :: rest)
    else none

/-- The frame separator `\r?\n\r?\n`: two consecutive newline units. -/
def matchSep (cs : List Char) : Option (List Char) :=
  (matchNL cs).bind matchNL

theorem matchNL_length {cs rest : List Char} (h : matchNL cs = some rest) :
    rest.length < cs.length := by
  match cs with
  | [] => simp [matchNL] at h
  | [c] =>
    simp only [matchNL] at h
    split at h <;> simp_all
  | c1 :: c2 :: t =>
    simp only [matchNL] at h
    split at h
    · split at h <;> simp_all +arith
    · split at h <;> simp_all +arith

theorem matchSep_length {cs rest : List Char} (h : matchSep cs = some rest) :
    rest.length < cs.length := by
  simp only [matchSep, Option.bind_eq_some] at h
  obtain ⟨mid, h1, h2⟩ := h
  exact (matchNL_length h2).trans (matchNL_length h1)

/-- Leftmost occurrence of the frame separator: `some (before, after)`
splits the input around the first `\r?\n\r?\n` match. -/
def findSep : List Char → Option (List Char × List Char)
  | [] => none
  | c :: rest =>
    match matchSep (c :: rest) with
    | some after => some ([], after)
    | none => (findSep rest).map fun p => (c :: p.1, p.2)

theorem findSep_length {cs b a : List Char} (h : findSep cs = some (b, a)) :
    a.length < cs.length := by
  induction cs generalizing b a with
  | nil => simp [findSep] at h
  | cons c rest ih =>
    simp only [findSep] at h
    split at h
    · rename_i after hm
      obtain ⟨rfl, rfl⟩ := by simpa using h
      exact matchSep_length hm
    · simp only [Option.map_eq_some'] at h
      obtain ⟨⟨b2, a2⟩, hf, heq⟩ := h
      obtain ⟨rfl, rfl⟩ := by simpa using heq
      exact (ih hf).trans (by simp)

/-- `buffer.split(/\r?\n\r?\n/)` with the last piece split off,
fuelled so that it evaluates by kernel reduction; `splitFrames` supplies
enough fuel and `splitFrames_eq` is its natural unfolding. -/
def splitFramesFuel : Nat → List Char → List (List Char) × List Char
  | 0, cs => ([], cs)
  | fuel + 1, cs =>
    match findSep cs with
    | none => ([], cs)
    | some (before, after) =>
      let p := splitFramesFuel fuel after
      (before :: p.1, p.2)

/-- `buffer.split(/\r?\n\r?\n/)` with the last piece split off: the
complete frames in order, and the trailing remainder kept as the buffer. -/
def splitFrames (cs : List Char) : List (List Char) × List Char :=
  splitFramesFuel cs.length cs

theorem splitFramesFuel_congr :
    ∀ (f1 : Nat) (cs : List Char) (f2 : Nat), cs.length ≤ f1 → cs.length ≤ f2 →
      splitFramesFuel f1 cs = splitFramesFuel f2 cs := by
  intro f1
  induction f1 with
  | zero =>
    intro cs f2 h1 _
    have : cs = [] := List.eq_nil_of_length_eq_zero (Nat.le_zero.mp h1)
    subst this
    cases f2 <;> simp [splitFramesFuel, findSep]
  | succ f1 ih =>
    intro cs f2 h1 h2
    cases f2 with
    | zero =>
      have : cs = [] := List.eq_nil_of_length_eq_zero (Nat.le_zero.mp h2)
      subst this
      simp [splitFramesFuel, findSep]
    | succ f2 =>
      simp only [splitFramesFuel]
      cases hf : findSep cs with
      | none => rfl
      | some p =>
        obtain ⟨b, a⟩ := p
        have ha := findSep_length hf
        have := ih a f2 (by omega) (by omega)
        simp [this]

theorem splitFrames_eq (cs : List Char) :
    splitFrames cs =
      match findSep cs with
      | none => ([], cs)
      | some (before, after) =>
        (before :: (splitFrames after).1, (splitFrames after).2) := by
  unfold splitFrames
  cases hl : cs with
  | nil => simp [splitFramesFuel, findSep]
  | cons c rest =>
    simp only [List.length_cons, splitFramesFuel]
    cases hf : findSep (c :: rest) with
    | none => rfl
    | some p =>
      obtain ⟨b, a⟩ := p
      have ha := findSep_length hf
      have := splitFramesFuel_congr rest.length a a.length
        (by simp at ha; omega) (le_refl _)
      simp [this]

/-- `frame.split(/\r?\n/)`: the lines of one frame. -/
def findNL : List Char → Option (List Char × List Char)
  | [] => none
  | c :: rest =>
    match matchNL (c :: rest) with
    | some after => some ([], after)
    | none => (findNL rest).map fun p => (c :: p.1, p.2)

theorem findNL_length {cs b a : List Char} (h : findNL cs = some (b, a)) :
    a.length < cs.length := by
  induction cs generalizing b a with
  | nil => simp [findNL] at h
  | cons c rest ih =>
    simp only [findNL] at h
    split at h
    · rename_i after hm
      obtain ⟨rfl, rfl⟩ := by simpa using h
      exact matchNL_length hm
    · simp only [Option.map_eq_some'] at h
      obtain ⟨⟨b2, a2⟩, hf, heq⟩ := h
      obtain ⟨rfl, rfl⟩ := by simpa using heq
      exact (ih hf).trans (by simp)

/-- Fuelled form of `frame.split(/\r?\n/)`. -/
def splitLinesFuel : Nat → List Char → List (List Char)
  | 0, cs => [cs]
  | fuel + 1, cs =>
    match findNL cs with
    | none => [cs]
    | some (before, after) => before :: splitLinesFuel fuel after

/-- `frame.split(/\r?\n/)` (all pieces, including trailing empties). -/
def splitLines (cs : List Char) : List (List Char) :=
  splitLinesFuel cs.length cs

theorem splitLinesFuel_congr :
    ∀ (f1 : Nat) (cs : List Char) (f2 : Nat), cs.length ≤ f1 → cs.length ≤ f2 →
      splitLinesFuel f1 cs = splitLinesFuel f2 cs := by
  intro f1
  induction f1 with
  | zero =>
    intro cs f2 h1 _
    have : cs = [] := List.eq_nil_of_length_eq_zero (Nat.le_zero.mp h1)
    subst this
    cases f2 <;> simp [splitLinesFuel, findNL]
  | succ f1 ih =>
    intro cs f2 h1 h2
    cases f2 with
    | zero =>
      have : cs = [] := List.eq_nil_of_length_eq_zero (Nat.le_zero.mp h2)
      subst this
      simp [splitLinesFuel, findNL]
    | succ f2 =>
      simp only [splitLinesFuel]
      cases hf : findNL cs with
      | none => rfl
      | some p =>
        obtain ⟨b, a⟩ := p
        have ha := findNL_length hf
        have := ih a f2 (by omega) (by omega)
        simp [this]

theorem splitLines_eq (cs : List Char) :
    splitLines cs =
      match findNL cs with
      | none => [cs]
      | some (before, after) => before :: splitLines after := by
  unfold splitLines
  cases hl : cs with
  | nil => simp [splitLinesFuel, findNL]
  | cons c rest =>
    simp only [List.length_cons, splitLinesFuel]
    cases hf : findNL (c :: rest) with
    | none => rfl
    | some p =>
      obtain ⟨b, a⟩ := p
      have ha := findNL_length hf
      have := splitLinesFuel_congr rest.length a a.length
        (by simp at ha; omega) (le_refl _)
      simp [this]

/-! ## Frame parsing (the per-frame loop of `captureSSE`,
src/index.ts lines 477-495) -/

/-- The fields accumulated while scanning the lines of one frame. -/
structure FrameData where
  eventName : List Char
  eventId : Option (List Char)
  dataLines : List (List Char)
deriving DecidableEq

/-- The initial per-frame accumulator: event name `message`, no id, no
data lines. -/
def initFrame : FrameData :=
  { eventName := "message".toList, eventId := none, dataLines := [] }

/-- One line of a frame, mirroring the `for (const line of ...)` body:
comment lines (leading `:`) are skipped; `event:` sets the name (its
value trimmed, empty falling back to `message`); `id:` sets the id
(trimmed); `data:` appends the rest of the line with leading whitespace
stripped. -/
def frameLineStep (st : FrameData) (line : List Char) : FrameData :=
  if ":".toList.isPrefixOf line then st
  else if "event:".toList.isPrefixOf line then
    { st with eventName :=
        let v := jsTrim (line.drop 6)
        if v = [] then "message".toList else v }
  else if "id:".toList.isPrefixOf line then
    { st with eventId := some (jsTrim (line.drop 3)) }
  else if "data:".toList.isPrefixOf line then
    { st with dataLines := st.dataLines ++ [jsTrimStart (line.drop 5)] }
  else st

/-- Parse one complete frame into its event name, id and data lines. -/
def parseFrame (frame : List Char) : FrameData :=
  (splitLines frame).foldl frameLineStep initFrame

/-- `dataLines.join("\n")`: the data payload of a frame. -/
def frameData (fd : FrameData) : List Char :=
  List.intercalate ['\n'] fd.dataLines

/-! ## Token counters and per-event counts (`captureSSE`,
src/index.ts lines 494-508) -/

/-- `usageInputTokens = Number(usage.input_tokens ?? usageInputTokens) ||
usageInputTokens`: the running counter update for one `usage` field.
A missing (`undefined`) or `null` field falls back through `??` to the
previous value; otherwise the numeric coercion is taken, with a NaN or
zero result (both falsy) keeping the previous value. -/
def tokenUpdate (prev : Int) (field : Option Json) : Int :=
  match field with
  | none => prev
  | some Json.null => prev
  | some v =>
    match jsToNumber v with
    | none => prev
    | some n => if n = 0 then prev else n

/-- `eventTypeCount.set(name, (get(name) ?? 0) + 1)`: bump the count for
an event name, keeping `Map` insertion order. -/
def bumpCount : List (List Char × Nat) → List Char → List (List Char × Nat)
  | [], name => [(name, 1)]
  | (k, n) :: rest, name =>
    if k = name then (k, n + 1) :: rest else (k, n) :: bumpCount rest name

/-- The frame-level mutable state of one `captureSSE` run: `sequence`,
`eventTypeCount`, `usageInputTokens`, `usageOutputTokens`.  (The `buffer`
and `sseBytes` locals live in `SSEState`; the per-frame loop neither
reads nor writes them.) -/
structure DecodeCore where
  sequence : Nat
  typeCounts : List (List Char × Nat)
  usageIn : Int
  usageOut : Int
deriving DecidableEq

/-- All mutable locals of one `captureSSE` run. -/
structure SSEState where
  buffer : List Char
  sseBytes : Nat
  core : DecodeCore
deriving DecidableEq

/-- `captureSSE`'s initial state. -/
def initSSE : SSEState :=
  { buffer := [], sseBytes := 0,
    core := { sequence := 0, typeCounts := [], usageIn := 0, usageOut := 0 } }

/-- The usage side channel for one `message_delta` frame: `JSON.parse` the
payload (a throw, including the property access on a parsed `null`, is
caught and ignored), and if it has a truthy `usage` of object type update
both counters. -/
def usageUpdate (uIn uOut : Int) (data : List Char) : Int × Int :=
  match jsonParse data with
  | none => (uIn, uOut)
  | some p =>
    match jsGet p "usage" with
    | none => (uIn, uOut)
    | some u =>
      if jsTruthy u ∧ jsTypeofObject u then
        (tokenUpdate uIn (jsGet u "input_tokens"),
         tokenUpdate uOut (jsGet u "output_tokens"))
      else (uIn, uOut)

/-- Process one complete split-off frame: whitespace-only frames are
skipped; otherwise the sequence number is bumped, the frame parsed, the
per-event-name count bumped, the `message_delta` usage side channel run,
and one numbered frame emitted. -/
def processFrame (core : DecodeCore) (frame : List Char) :
    DecodeCore × Option (Nat × FrameData) :=
  if jsTrim frame = [] then (core, none)
  else
    ({ sequence := core.sequence + 1,
       typeCounts := bumpCount core.typeCounts (parseFrame frame).eventName,
       usageIn :=
         if (parseFrame frame).eventName = "message_delta".toList then
           (usageUpdate core.usageIn core.usageOut (frameData (parseFrame frame))).1
         else core.usageIn,
       usageOut :=
         if (parseFrame frame).eventName = "message_delta".toList then
           (usageUpdate core.usageIn core.usageOut (frameData (parseFrame frame))).2
         else core.usageOut },
     some (core.sequence + 1, parseFrame frame))

/-- The inner `for (const frame of frames)` loop over the complete frames
split off one chunk. -/
def processFrames (core : DecodeCore) :
    List (List Char) → DecodeCore × List (Nat × FrameData)
  | [] => (core, [])
  | f :: fs =>
    ((processFrames (processFrame core f).1 fs).1,
     (processFrame core f).2.toList ++ (processFrames (processFrame core f).1 fs).2)

/-- One `reader.read()` iteration: count the chunk's bytes, append the
decoded chunk to the buffer, split off the complete frames (the last
piece staying in the buffer) and process them. -/
def processChunk (st : SSEState) (chunk : List Char) :
    SSEState × List (Nat × FrameData) :=
  ({ buffer := (splitFrames (st.buffer ++ chunk)).2,
     sseBytes := st.sseBytes + (chunk.map Char.utf8Size).sum,
     core := (processFrames st.core (splitFrames (st.buffer ++ chunk)).1).1 },
   (processFrames st.core (splitFrames (st.buffer ++ chunk)).1).2)

/-- The whole `while (true)` read loop of `captureSSE` over a chunked
stream: the final state and every emitted numbered frame.  At end of
stream the loop breaks with whatever is left in the buffer unprocessed. -/
def runSSE (st : SSEState) : List (List Char) → SSEState × List (Nat × FrameData)
  | [] => (st, [])
  | chunk :: rest =>
    ((runSSE (processChunk st chunk).1 rest).1,
     (processChunk st chunk).2 ++ (runSSE (processChunk st chunk).1 rest).2)

/-- The `sse_summary` record logged after the read loop (src/index.ts
lines 529-539); the `request_rollup` logged right after it carries the
same four fields. -/
structure SSESummary where
  eventCount : Nat
  streamBytes : Nat
  usageIn : Int
  usageOut : Int
  typeCounts : List (List Char × Nat)
deriving DecidableEq

/-- The summary record of a whole `captureSSE` run over the given chunks. -/
def sseSummary (chunks : List (List Char)) : SSESummary :=
  let st := (runSSE initSSE chunks).1
  { eventCount := st.core.sequence, streamBytes := st.sseBytes,
    usageIn := st.core.usageIn, usageOut := st.core.usageOut,
    typeCounts := st.core.typeCounts }

/-! ## Telemetry queue (`queueAxiom` / `flushAxiom`,
src/index.ts lines 228-231, 281-320, 379-398; identical queue logic in
the part_000 variant, lines 210-213, 263-302, 304-323)

The module-level mutable variables become an explicit state record; the
outcome of the network round trip of one flush attempt (reaching
`response.ok`, a non-ok status, or a thrown error) is an input of the
step function. -/

/-- Process-level telemetry configuration: whether `AXIOM_TOKEN` and
`AXIOM_DATASET` are both set, the batch size, and
`AXIOM_AUTO_CREATE_DATASET`. -/
structure QueueConfig where
  configured : Bool
  batchSize : Nat
  autoCreate : Bool
deriving DecidableEq

/-- The four module-level mutables: `axiomQueue`, `axiomFlushTimer`,
`axiomFlushInFlight`, `axiomDatasetEnsured`. -/
structure QueueState (R : Type) where
  queue : List R
  timer : Bool
  inFlight : Bool
  datasetEnsured : Bool

/-- The observable outcome of one flush attempt's network activity:
the ingest call returned ok; the ingest call returned a non-ok status;
or `ensureAxiomDataset`/`fetch` threw (caught by the `catch` block). -/
inductive FlushOutcome where
  | ok : FlushOutcome
  | httpErr (status : Nat) : FlushOutcome
  | thrown : FlushOutcome
deriving DecidableEq

/-- One `flushAxiom()` invocation (src/index.ts lines 281-316, without
the trailing re-trigger, which `runFlushes` chains explicitly).  Returns
the records successfully exported by this attempt.  A no-op guard
(unconfigured, already in flight, or empty queue) returns the state
unchanged.  Otherwise the batch is spliced from the front; on success it
is dropped and `ensureAxiomDataset` has marked the dataset ensured (when
auto-create is on); on a non-ok status or a throw the batch is unshifted
back onto the front; a 404 status additionally clears the ensured flag.
The in-flight flag, set for the duration of the attempt, is reset by the
`finally` block on every path, so a step that starts with it clear ends
with it clear. -/
def flushStep {R : Type} (cfg : QueueConfig) (o : FlushOutcome)
    (st : QueueState R) : QueueState R × List R :=
  if ¬cfg.configured ∨ st.inFlight ∨ st.queue.isEmpty then (st, [])
  else
    let batch := st.queue.take cfg.batchSize
    let rest := st.queue.drop cfg.batchSize
    match o with
    | .ok =>
      ({ st with queue := rest,
                 datasetEnsured := st.datasetEnsured || cfg.autoCreate }, batch)
    | .httpErr status =>
      ({ st with queue := batch ++ rest,
                 datasetEnsured :=
                   if status = 404 then false
                   else st.datasetEnsured || cfg.autoCreate }, [])
    | .thrown =>
      ({ st with queue := batch ++ rest }, [])

/-- The `if (axiomQueue.length > 0) void flushAxiom()` retry chain: run
one flush attempt per listed outcome, accumulating everything exported. -/
def runFlushes {R : Type} (cfg : QueueConfig) :
    List FlushOutcome → QueueState R → List R × QueueState R
  | [], st => ([], st)
  | o :: os, st =>
    let (st2, ex) := flushStep cfg o st
    let (rest, st3) := runFlushes cfg os st2
    (ex ++ rest, st3)

/-- `queueAxiom(event)` up to (but not including) the flush attempt it
may start (src/index.ts lines 379-398): push the record; if the queue
has reached the batch size report that a flush is triggered and return
(the pending timer, if any, is left untouched); otherwise arm the timer
unless one is already pending. -/
def queuePush {R : Type} (cfg : QueueConfig) (record : R)
    (st : QueueState R) : QueueState R × Bool :=
  if ¬cfg.configured then (st, false)
  else
    let q := st.queue ++ [record]
    if cfg.batchSize ≤ q.length then ({ st with queue := q }, true)
    else if st.timer then ({ st with queue := q }, false)
    else ({ st with queue := q, timer := true }, false)

/-- `queueAxiom(event)` including the `void flushAxiom()` it triggers at
the batch-size threshold. -/
def enqueueStep {R : Type} (cfg : QueueConfig) (o : FlushOutcome)
    (record : R) (st : QueueState R) : QueueState R × List R :=
  let (st2, triggered) := queuePush cfg record st
  if triggered then flushStep cfg o st2 else (st2, [])

/-! ## Request pipeline emissions (the `Bun.serve` fetch handler,
src/index.ts lines 561-759)

The handler's telemetry emissions on the successful-upstream path, as the
ordered list of (event action, trace id) pairs it hands to `log`.  The
`void captureResponseBody(...)` / `void captureSSE(...)` calls run their
function bodies only up to the first `await` (reading the teed body)
before control returns to the handler, so every record they log lands
after the handler's own synchronous `request_rollup` / return. -/

/-- One emitted telemetry record, reduced to its action and trace id. -/
structure EmitRec where
  action : String
  traceId : String
deriving DecidableEq

/-- The `request_tool` records: one per element of a `tools` array that
is a non-null object (src/index.ts lines 607-628). -/
def toolRecords (traceId : String) (requestJson : Option Json) : List EmitRec :=
  match requestJson with
  | none => []
  | some j =>
    if ¬jsTruthy j then []
    else
      match jsGet j "tools" with
      | some (Json.arr ts) =>
        (ts.filter fun t => jsTruthy t && jsTypeofObject t).map
          fun _ => { action := "request_tool", traceId := traceId }
      | _ => []

/-- The SSE inspection path's emissions: one `sse_event` per decoded
frame, then `sse_summary`, then `request_rollup` (src/index.ts lines
442-551). -/
def sseEmits (traceId : String) (chunks : List (List Char)) : List EmitRec :=
  ((runSSE initSSE chunks).2.map fun _ => { action := "sse_event", traceId := traceId })
  ++ [{ action := "sse_summary", traceId := traceId },
      { action := "request_rollup", traceId := traceId }]

/-- The ordered telemetry emissions of one request whose upstream call
succeeds: `request_received`, the tool records, `response_headers`; then
nothing more if the upstream reply has no body; else for an
`text/event-stream` content type the SSE path; otherwise the synchronous
`request_rollup` followed by the detached `captureResponseBody`'s
`response_body`, logged only after the inspection copy has been fully
read. -/
def fetchSuccessEmits (traceId : String) (requestJson : Option Json)
    (hasBody : Bool) (isSSE : Bool) (bodyChunks : List (List Char)) : List EmitRec :=
  [{ action := "request_received", traceId := traceId }]
  ++ toolRecords traceId requestJson
  ++ [{ action := "response_headers", traceId := traceId }]
  ++ (if ¬hasBody then []
      else if isSSE then sseEmits traceId bodyChunks
      else [{ action := "request_rollup", traceId := traceId },
            { action := "response_body", traceId := traceId }])

/-! ## Insight Extractor prompt preview (`extractRequestInsights`,
src/index.ts lines 92-139; part_000 variant lines 87-92 and 105-152)

Only the `prompt.preview` field is in question; the two source variants
differ exactly in whether `truncate` is applied. -/

theorem length_dropWhile_le {α : Type} (p : α → Bool) (l : List α) :
    (l.dropWhile p).length ≤ l.length := by
  induction l with
  | nil => simp
  | cons a l ih =>
    by_cases h : p a
    · simpa [List.dropWhile, h] using Nat.le_succ_of_le ih
    · simp [List.dropWhile, h]

/-- `text.replace(/\s+/g, " ")` with an "inside a whitespace run" flag:
the first whitespace character of a run emits one space, the rest of the
run emits nothing. -/
def collapseWSAux : Bool → List Char → List Char
  | _, [] => []
  | inRun, c :: rest =>
    if jsWhitespace c then
      if inRun then collapseWSAux true rest
      else ' ' :: collapseWSAux true rest
    else c :: collapseWSAux false rest

/-- `text.replace(/\s+/g, " ")`: collapse every whitespace run to one
space. -/
def collapseWS (cs : List Char) : List Char :=
  collapseWSAux false cs

/-- `truncate(value, max = 280)` from the part_000 variant (lines 87-92):
values longer than `max` are cut to `max` characters with `…` appended. -/
def truncate (max : Nat) (value : List Char) : List Char :=
  if value.length ≤ max then value else value.take max ++ ['…']

/-- JavaScript strict equality of a property read against a string
literal, e.g. `m.role === "user"`: true exactly when the property is
present and is that string. -/
def propIsStr (j : Json) (k : String) (s : String) : Bool :=
  match jsGet j k with
  | some (Json.str t) => t = s
  | _ => false

/-- The first `text`-typed content block of the first `user`-role message
of the parsed request payload, when every guard of the source holds. -/
def promptSource (parsed : Option Json) : Option (List Char) :=
  match parsed with
  | none => none
  | some j =>
    if ¬jsTruthy j then none
    else
      match jsGet j "messages" with
      | some (Json.arr ms) =>
        match ms.find? (fun m => jsTruthy m && jsTypeofObject m &&
            propIsStr m "role" "user") with
        | none => none
        | some firstUser =>
          match jsGet firstUser "content" with
          | some (Json.arr cs) =>
            match cs.find? (fun c => jsTruthy c && jsTypeofObject c &&
                propIsStr c "type" "text") with
            | none => none
            | some firstText =>
              match jsGet firstText "text" with
              | some (Json.str s) => some s.toList
              | _ => none
          | _ => none
      | _ => none

/-- `prompt.preview` as computed by the main runtime (src/index.ts line
122): whitespace-collapsed, NOT truncated. -/
def promptPreview (parsed : Option Json) : Option (List Char) :=
  (promptSource parsed).map collapseWS

/-- `prompt.preview` as computed by the part_000 variant (line 135):
whitespace-collapsed then truncated to 280 characters with `…`. -/
def promptPreviewV0 (parsed : Option Json) : Option (List Char) :=
  (promptSource parsed).map fun s => truncate 280 (collapseWS s)

/-! ## Claim C8: the Redactor -/

/-- C8 counterexample: the claim's sensitive set contains `api-key`, but
the source's set contains `x-api-key` instead, so the source leaves an
`api-key` header's value untouched where the claim requires the marker. -/
theorem redact_api_key_counterexample :
    redactHeaderValue "api-key" "secret" = "secret" ∧
    specRedactHeaderValue "api-key" "secret" = "[REDACTED]" ∧
    redactHeaderValue "api-key" "secret" ≠ specRedactHeaderValue "api-key" "secret" := by
  refine ⟨by decide, by decide, by decide⟩

/-- C8 (amended): with the sensitive set as the source has it
(`x-api-key` in place of the claim's `api-key`), the Redactor returns the
value unchanged unless the lower-cased name is in the set, in which case
it returns the fixed marker; it is total and idempotent. -/
theorem redactor_total_idempotent (name value : String) :
    (redactHeaderValue name value = "[REDACTED]" ∨
      redactHeaderValue name value = value) ∧
    (jsToLower name ∈ SENSITIVE_HEADERS →
      redactHeaderValue name value = "[REDACTED]") ∧
    (jsToLower name ∉ SENSITIVE_HEADERS →
      redactHeaderValue name value = value) ∧
    redactHeaderValue name (redactHeaderValue name value) =
      redactHeaderValue name value := by
  unfold redactHeaderValue
  by_cases h : jsToLower name ∈ SENSITIVE_HEADERS
  · simp [h]
  · simp [h]

/-- C8 witness: the spec's two worked examples, via
`redactor_total_idempotent`. -/
theorem redactor_total_idempotent_witness :
    redactHeaderValue "Authorization" "Bearer xyz" = "[REDACTED]" ∧
    redactHeaderValue "X-Custom" "v" = "v" :=
  ⟨(redactor_total_idempotent "Authorization" "Bearer xyz").2.1 (by decide),
   (redactor_total_idempotent "X-Custom" "v").2.2.1 (by decide)⟩

/-! ## Claim C3: single-flight export -/

/-- C3: a flush attempt is a no-op (state unchanged, nothing removed,
nothing sent) when an export is already in flight or the buffer is empty;
and an attempt that starts with the in-flight flag clear ends with it
clear on every outcome (success, non-ok status, or throw), since the
`finally` block always resets it. -/
theorem flush_single_flight {R : Type} (cfg : QueueConfig)
    (o : FlushOutcome) (st : QueueState R) :
    (st.inFlight = true ∨ st.queue = [] → flushStep cfg o st = (st, [])) ∧
    (st.inFlight = false → ((flushStep cfg o st).1).inFlight = false) := by
  constructor
  · intro h
    have hcond : ¬cfg.configured = true ∨ st.inFlight = true ∨ st.queue.isEmpty = true := by
      rcases h with h | h
      · exact Or.inr (Or.inl h)
      · exact Or.inr (Or.inr (by simp [h]))
    unfold flushStep
    rw [if_pos hcond]
  · intro h
    unfold flushStep
    by_cases hg : ¬cfg.configured = true ∨ st.inFlight = true ∨ st.queue.isEmpty = true
    · rw [if_pos hg]
      exact h
    · rw [if_neg hg]
      cases o <;> simp [h]

/-- C3 witness: a concrete in-flight state is untouched by a new export
invocation, and a concrete attempt from a clear state ends clear, via
`flush_single_flight`. -/
theorem flush_single_flight_witness :
    flushStep (R := Nat) ⟨true, 2, true⟩ .ok ⟨[5], false, true, false⟩ =
      (⟨[5], false, true, false⟩, []) ∧
    ((flushStep (R := Nat) ⟨true, 2, true⟩ .thrown ⟨[5], false, false, false⟩).1).inFlight = false :=
  ⟨(flush_single_flight ⟨true, 2, true⟩ .ok ⟨[5], false, true, false⟩).1 (Or.inl rfl),
   (flush_single_flight ⟨true, 2, true⟩ .thrown ⟨[5], false, false, false⟩).2 rfl⟩

/-! ## Claim C1: failed exports requeue at the front; nothing is lost -/

/-- A failed flush attempt (non-ok status or throw) leaves the buffer
exactly as it was: the batch spliced off the front is unshifted back onto
the front in its original order. -/
theorem flush_failure_requeues_front {R : Type} (cfg : QueueConfig)
    (status : Nat) (st : QueueState R) :
    ((flushStep cfg (.httpErr status) st).1).queue = st.queue ∧
    ((flushStep cfg .thrown st).1).queue = st.queue := by
  unfold flushStep
  by_cases hg : ¬cfg.configured = true ∨ st.inFlight = true ∨ st.queue.isEmpty = true
  · rw [if_pos hg, if_pos hg]
    exact ⟨rfl, rfl⟩
  · rw [if_neg hg, if_neg hg]
    exact ⟨List.take_append_drop _ _, List.take_append_drop _ _⟩

/-- Draining a non-in-flight queue with `k` successful attempts exports
every record exactly once in order and empties the buffer, provided `k`
batches cover the queue. -/
theorem runFlushes_ok_drains {R : Type} (cfg : QueueConfig)
    (hconf : cfg.configured = true) (hb : 0 < cfg.batchSize) :
    ∀ (k : Nat) (q : List R) (tm dse : Bool),
      q.length ≤ k * cfg.batchSize →
      (runFlushes cfg (List.replicate k .ok) ⟨q, tm, false, dse⟩).1 = q ∧
      ((runFlushes cfg (List.replicate k .ok) ⟨q, tm, false, dse⟩).2).queue = [] ∧
      ((runFlushes cfg (List.replicate k .ok) ⟨q, tm, false, dse⟩).2).inFlight = false := by
  intro k
  induction k with
  | zero =>
    intro q tm dse hlen
    have : q = [] := List.eq_nil_of_length_eq_zero (Nat.le_zero.mp (by simpa using hlen))
    subst this
    simp [runFlushes]
  | succ k ih =>
    intro q tm dse hlen
    rcases hq : q with _ | ⟨r, rs⟩
    · have h0 : (0 : Nat) ≤ k * cfg.batchSize := Nat.zero_le _
      have hih := ih [] tm dse (by simp)
      have hnoop : flushStep cfg .ok (⟨[], tm, false, dse⟩ : QueueState R) =
          (⟨[], tm, false, dse⟩, []) := by
        unfold flushStep
        rw [if_pos (Or.inr (Or.inr (by simp)))]
      simp only [runFlushes, hnoop]
      simpa using hih
    · rw [List.replicate_succ]
      have hguard : ¬(¬cfg.configured = true ∨ (false : Bool) = true ∨
          ((r :: rs : List R).isEmpty = true)) := by
        simp [hconf]
      have hstep : flushStep cfg .ok (⟨r :: rs, tm, false, dse⟩ : QueueState R) =
          (⟨(r :: rs).drop cfg.batchSize, tm, false, dse || cfg.autoCreate⟩,
            (r :: rs).take cfg.batchSize) := by
        unfold flushStep
        rw [if_neg hguard]
      have hlen2 : ((r :: rs).drop cfg.batchSize).length ≤ k * cfg.batchSize := by
        have h1 : (r :: rs : List R).length ≤ (k + 1) * cfg.batchSize := hq ▸ hlen
        have h2 : (r :: rs : List R).length - cfg.batchSize ≤
            (k + 1) * cfg.batchSize - cfg.batchSize := Nat.sub_le_sub_right h1 _
        rw [Nat.succ_mul, Nat.add_sub_cancel] at h2
        simpa using h2
      have := ih ((r :: rs).drop cfg.batchSize) tm (dse || cfg.autoCreate) hlen2
      simp only [runFlushes, hstep]
      refine ⟨?_, this.2.1, this.2.2⟩
      rw [this.1]
      exact List.take_append_drop _ _

/-- C1: a failed export attempt returns its batch to the front of the
buffer unchanged, and a queue of `N` records whose export fails once and
then succeeds exports all `N` records exactly once, in their original
order, emptying the buffer (given enough succeeding attempts and a
positive batch size). -/
theorem queue_retry_no_record_lost {R : Type} (cfg : QueueConfig)
    (recs : List R) (k status : Nat) (tm dse : Bool)
    (hconf : cfg.configured = true) (hb : 0 < cfg.batchSize)
    (hk : recs.length ≤ k * cfg.batchSize) :
    ((flushStep cfg (.httpErr status) ⟨recs, tm, false, dse⟩).1).queue = recs ∧
    (runFlushes cfg (.httpErr status :: List.replicate k .ok)
        ⟨recs, tm, false, dse⟩).1 = recs ∧
    ((runFlushes cfg (.httpErr status :: List.replicate k .ok)
        ⟨recs, tm, false, dse⟩).2).queue = [] := by
  refine ⟨(flush_failure_requeues_front cfg status _).1, ?_⟩
  by_cases hrecs : recs = []
  · subst hrecs
    have hg : (¬cfg.configured = true ∨ (false : Bool) = true ∨
        (([] : List R).isEmpty = true)) := Or.inr (Or.inr (by simp))
    have hstep : flushStep cfg (.httpErr status) (⟨[], tm, false, dse⟩ : QueueState R) =
        (⟨[], tm, false, dse⟩, []) := by
      unfold flushStep
      rw [if_pos hg]
    have hdrain := runFlushes_ok_drains (R := R) cfg hconf hb k [] tm dse (by simp)
    simp only [runFlushes, hstep]
    exact ⟨by simpa using hdrain.1, by simpa using hdrain.2.1⟩
  · have hg : ¬(¬cfg.configured = true ∨ (false : Bool) = true ∨
        (recs.isEmpty = true)) := by simp [hconf, hrecs]
    have hstep : flushStep cfg (.httpErr status) (⟨recs, tm, false, dse⟩ : QueueState R) =
        (⟨recs, tm, false,
          if status = 404 then false else dse || cfg.autoCreate⟩, []) := by
      unfold flushStep
      rw [if_neg hg]
      simp only [List.take_append_drop]
    have hdrain := runFlushes_ok_drains cfg hconf hb k recs tm
      (if status = 404 then false else dse || cfg.autoCreate) hk
    simp only [runFlushes, hstep]
    exact ⟨by simpa using hdrain.1, by simpa using hdrain.2.1⟩

/-- C1 witness: three records, batch size two, one failure then two
successes: everything is exported once, in order, via
`queue_retry_no_record_lost`. -/
theorem queue_retry_no_record_lost_witness :
    ((flushStep (R := Nat) ⟨true, 2, true⟩ (.httpErr 500) ⟨[10, 11, 12], false, false, false⟩).1).queue
        = [10, 11, 12] ∧
    (runFlushes (R := Nat) ⟨true, 2, true⟩ (.httpErr 500 :: List.replicate 2 .ok)
        ⟨[10, 11, 12], false, false, false⟩).1 = [10, 11, 12] ∧
    ((runFlushes (R := Nat) ⟨true, 2, true⟩ (.httpErr 500 :: List.replicate 2 .ok)
        ⟨[10, 11, 12], false, false, false⟩).2).queue = [] :=
  queue_retry_no_record_lost ⟨true, 2, true⟩ [10, 11, 12] 2 500 false false
    rfl (by decide) (by decide)

/-! ## Claim C2: reaching the batch size triggers an export, but the
pending timer is NOT cancelled (`queueAxiom` has no `clearTimeout`) -/

/-- C2 counterexample: batch size 2, one queued record and a pending
timer; enqueueing a second record triggers an immediate (successful)
export of both records, yet the timer is still pending afterwards — the
claim's "afterwards no flush timer is pending" fails. -/
theorem enqueue_timer_not_cancelled_counterexample :
    (queuePush (R := Nat) ⟨true, 2, true⟩ 1 ⟨[0], true, false, false⟩).2 = true ∧
    (enqueueStep (R := Nat) ⟨true, 2, true⟩ .ok 1 ⟨[0], true, false, false⟩).2 = [0, 1] ∧
    ((enqueueStep (R := Nat) ⟨true, 2, true⟩ .ok 1 ⟨[0], true, false, false⟩).1).timer = true := by
  refine ⟨by decide, by decide, by decide⟩

/-- C2 (amended): when enqueueing makes the buffer reach the batch size,
an export attempt is triggered immediately (on a success outcome it
exports the first `batchSize` records without waiting for the timer), and
the pending-timer flag is left exactly as it was: the timer is not
cancelled. -/
theorem enqueue_batch_size_triggers_export {R : Type} (cfg : QueueConfig)
    (record : R) (st : QueueState R) (o : FlushOutcome)
    (hconf : cfg.configured = true) (hflight : st.inFlight = false)
    (hreach : cfg.batchSize ≤ st.queue.length + 1) :
    (queuePush cfg record st).2 = true ∧
    ((queuePush cfg record st).1).timer = st.timer ∧
    ((enqueueStep cfg o record st).1).timer = st.timer ∧
    (enqueueStep cfg .ok record st).2 = (st.queue ++ [record]).take cfg.batchSize := by
  have hlen : cfg.batchSize ≤ (st.queue ++ [record]).length := by
    simpa using hreach
  have hpush : queuePush cfg record st = ({ st with queue := st.queue ++ [record] }, true) := by
    unfold queuePush
    rw [if_neg (by simp [hconf]), if_pos hlen]
  have hguard : ¬(¬cfg.configured = true ∨
      ({ st with queue := st.queue ++ [record] } : QueueState R).inFlight = true ∨
      (({ st with queue := st.queue ++ [record] } : QueueState R).queue.isEmpty = true)) := by
    simp [hconf, hflight]
  refine ⟨by rw [hpush], by rw [hpush], ?_, ?_⟩
  · unfold enqueueStep
    rw [hpush]
    simp only [if_pos]
    unfold flushStep
    rw [if_neg hguard]
    cases o <;> rfl
  · unfold enqueueStep
    rw [hpush]
    simp only [if_pos]
    unfold flushStep
    rw [if_neg hguard]

/-- C2 (amended) witness: concrete instance of
`enqueue_batch_size_triggers_export`. -/
theorem enqueue_batch_size_triggers_export_witness :
    (queuePush (R := Nat) ⟨true, 2, false⟩ 7 ⟨[3], true, false, true⟩).2 = true ∧
    ((queuePush (R := Nat) ⟨true, 2, false⟩ 7 ⟨[3], true, false, true⟩).1).timer = true ∧
    ((enqueueStep (R := Nat) ⟨true, 2, false⟩ .thrown 7 ⟨[3], true, false, true⟩).1).timer = true ∧
    (enqueueStep (R := Nat) ⟨true, 2, false⟩ .ok 7 ⟨[3], true, false, true⟩).2 = [3, 7] :=
  enqueue_batch_size_triggers_export ⟨true, 2, false⟩ 7 ⟨[3], true, false, true⟩
    .thrown rfl rfl (by decide)

/-! ## Claims C7 and C10: the `message_delta` usage counters -/

theorem tokenUpdate_zero_coercion (prev : Int) (v : Json)
    (h : jsToNumber v = some 0) : tokenUpdate prev (some v) = prev := by
  cases v <;> simp_all [tokenUpdate, jsToNumber]

/-- `tokenUpdate` on a non-null value reduces to its numeric-coercion
branch. -/
theorem tokenUpdate_some_eq (prev : Int) :
    ∀ (v : Json), v ≠ Json.null →
      tokenUpdate prev (some v) =
        (match jsToNumber v with
         | none => prev
         | some n => if n = 0 then prev else n)
  | .null, hv => absurd rfl hv
  | .bool _, _ => rfl
  | .num _, _ => rfl
  | .str _, _ => rfl
  | .arr _, _ => rfl
  | .obj _, _ => rfl

theorem tokenUpdate_ne_zero (prev : Int) (f : Option Json) (h : prev ≠ 0) :
    tokenUpdate prev f ≠ 0 := by
  rcases f with _ | v
  · exact h
  by_cases hv : v = Json.null
  · subst hv
    exact h
  rw [tokenUpdate_some_eq prev v hv]
  rcases hn : jsToNumber v with _ | n
  · exact h
  simp only
  by_cases h0 : n = 0
  · rw [if_pos h0]
    exact h
  · rw [if_neg h0]
    exact h0

theorem usageUpdate_fst_ne_zero (uIn uOut : Int) (data : List Char)
    (h : uIn ≠ 0) : (usageUpdate uIn uOut data).1 ≠ 0 := by
  unfold usageUpdate
  rcases hp : jsonParse data with _ | p
  · exact h
  simp only
  rcases hu : jsGet p "usage" with _ | u
  · exact h
  simp only
  by_cases hc : jsTruthy u = true ∧ jsTypeofObject u = true
  · rw [if_pos hc]
    exact tokenUpdate_ne_zero _ _ h
  · rw [if_neg hc]
    exact h

theorem usageUpdate_snd_ne_zero (uIn uOut : Int) (data : List Char)
    (h : uOut ≠ 0) : (usageUpdate uIn uOut data).2 ≠ 0 := by
  unfold usageUpdate
  rcases hp : jsonParse data with _ | p
  · exact h
  simp only
  rcases hu : jsGet p "usage" with _ | u
  · exact h
  simp only
  by_cases hc : jsTruthy u = true ∧ jsTypeofObject u = true
  · rw [if_pos hc]
    exact tokenUpdate_ne_zero _ _ h
  · rw [if_neg hc]
    exact h

theorem processFrame_usage_ne_zero (core : DecodeCore) (frame : List Char) :
    (core.usageIn ≠ 0 → ((processFrame core frame).1).usageIn ≠ 0) ∧
    (core.usageOut ≠ 0 → ((processFrame core frame).1).usageOut ≠ 0) := by
  unfold processFrame
  by_cases ht : jsTrim frame = []
  · simp [ht]
  rw [if_neg ht]
  simp only
  by_cases hd : (parseFrame frame).eventName = "message_delta".toList
  · rw [if_pos hd, if_pos hd]
    exact ⟨usageUpdate_fst_ne_zero _ _ _, usageUpdate_snd_ne_zero _ _ _⟩
  · rw [if_neg hd, if_neg hd]
    exact ⟨fun h => h, fun h => h⟩

theorem processFrames_usage_ne_zero (frames : List (List Char)) :
    ∀ core : DecodeCore,
    (core.usageIn ≠ 0 → ((processFrames core frames).1).usageIn ≠ 0) ∧
    (core.usageOut ≠ 0 → ((processFrames core frames).1).usageOut ≠ 0) := by
  induction frames with
  | nil => exact fun core => ⟨fun h => h, fun h => h⟩
  | cons f fs ih =>
    intro core
    simp only [processFrames]
    constructor
    · intro h
      exact (ih ((processFrame core f).1)).1 ((processFrame_usage_ne_zero core f).1 h)
    · intro h
      exact (ih ((processFrame core f).1)).2 ((processFrame_usage_ne_zero core f).2 h)

theorem runSSE_usage_ne_zero (chunks : List (List Char)) :
    ∀ st : SSEState,
    (st.core.usageIn ≠ 0 → (((runSSE st chunks).1).core).usageIn ≠ 0) ∧
    (st.core.usageOut ≠ 0 → (((runSSE st chunks).1).core).usageOut ≠ 0) := by
  induction chunks with
  | nil => exact fun st => ⟨fun h => h, fun h => h⟩
  | cons c cs ih =>
    intro st
    simp only [runSSE, processChunk]
    constructor
    · intro h
      exact (ih _).1 ((processFrames_usage_ne_zero _ st.core).1 h)
    · intro h
      exact (ih _).2 ((processFrames_usage_ne_zero _ st.core).2 h)

/-- C10: a `message_delta` usage field whose numeric coercion is 0 leaves
the corresponding running counter at its previous value (the
`Number(...) || previous` expression treats a 0 result exactly like NaN),
and consequently a counter that is nonzero — in particular one ever set
to a positive value — never returns to 0 for the rest of the stream. -/
theorem usage_zero_treated_as_no_update :
    (∀ (prev : Int) (v : Json), jsToNumber v = some 0 →
      tokenUpdate prev (some v) = prev) ∧
    (∀ (st : SSEState) (chunks : List (List Char)),
      0 < st.core.usageIn → (((runSSE st chunks).1).core).usageIn ≠ 0) ∧
    (∀ (st : SSEState) (chunks : List (List Char)),
      0 < st.core.usageOut → (((runSSE st chunks).1).core).usageOut ≠ 0) :=
  ⟨tokenUpdate_zero_coercion,
   fun st chunks h => (runSSE_usage_ne_zero chunks st).1 (by omega),
   fun st chunks h => (runSSE_usage_ne_zero chunks st).2 (by omega)⟩

/-- The C7/C10 concrete stream: one `message_delta` frame setting
`input_tokens` to 5, then one whose `input_tokens` is 0. -/
def deltaThenZeroStream : List Char :=
  ("event: message_delta\ndata: \x7b\"usage\":\x7b\"input_tokens\":5\x7d\x7d\n\n"
    ++ "event: message_delta\ndata: \x7b\"usage\":\x7b\"input_tokens\":0\x7d\x7d\n\n").toList

/-- C10 witness: on `deltaThenZeroStream` the counter set to 5 stays 5
after the zero update, via `usage_zero_treated_as_no_update`. -/
theorem usage_zero_treated_as_no_update_witness :
    tokenUpdate 5 (some (Json.num 0)) = 5 ∧
    (((runSSE initSSE [deltaThenZeroStream]).1).core).usageIn = 5 := by
  constructor
  · exact usage_zero_treated_as_no_update.1 5 (Json.num 0) (by decide)
  · decide

/-- C7 counterexample: after a `message_delta` frame sets the input
counter to 5, a later `message_delta` frame whose `usage.input_tokens`
is the numeric value 0 leaves the counter at 5 — the claim's "updated to
the numeric coercion" (which would make it 0) fails at this input. -/
theorem usage_update_zero_counterexample :
    (((runSSE initSSE [deltaThenZeroStream]).1).core).usageIn = 5 ∧
    jsToNumber (Json.num 0) = some 0 ∧ (5 : Int) ≠ 0 := by
  refine ⟨by decide, by decide, by decide⟩

/-- The spec's C7 end-to-end example stream: a `message_delta` frame with
`output_tokens` 5, then a terminating frame. -/
def messageDeltaExampleStream : List Char :=
  ("event: message_delta\ndata: \x7b\"usage\":\x7b\"output_tokens\":5\x7d\x7d\n\n"
    ++ "event: message_stop\ndata: \x7b\x7d\n\n").toList

/-- C7 (amended): a `message_delta` frame with a `usage` object updates
each running counter to the numeric coercion of its field only when that
coercion is a nonzero number (last-seen-wins, not summed); a missing,
null, non-numeric, or ZERO field leaves the previous counter unchanged.
The end-of-stream summary reports the final counters; on the spec's
example stream it reports `output_tokens = 5` and one `message_delta`
event. -/
theorem message_delta_usage_update :
    (∀ prev : Int, tokenUpdate prev none = prev) ∧
    (∀ prev : Int, tokenUpdate prev (some Json.null) = prev) ∧
    (∀ (prev : Int) (v : Json), jsToNumber v = none →
      tokenUpdate prev (some v) = prev) ∧
    (∀ (prev : Int) (v : Json), jsToNumber v = some 0 →
      tokenUpdate prev (some v) = prev) ∧
    (∀ (prev n : Int) (v : Json), jsToNumber v = some n → n ≠ 0 →
      tokenUpdate prev (some v) = n) ∧
    (∀ chunks : List (List Char),
      (sseSummary chunks).usageIn = (((runSSE initSSE chunks).1).core).usageIn ∧
      (sseSummary chunks).usageOut = (((runSSE initSSE chunks).1).core).usageOut) ∧
    ((sseSummary [messageDeltaExampleStream]).usageOut = 5 ∧
      (sseSummary [messageDeltaExampleStream]).typeCounts =
        [("message_delta".toList, 1), ("message_stop".toList, 1)]) := by
  refine ⟨fun prev => rfl, fun prev => rfl, ?_, ?_, ?_, fun chunks => ⟨rfl, rfl⟩,
    by decide, by decide⟩
  · intro prev v hv
    have hvn : v ≠ Json.null := by
      intro h
      rw [h] at hv
      simp [jsToNumber] at hv
    rw [tokenUpdate_some_eq prev v hvn, hv]
  · intro prev v hv
    by_cases hvn : v = Json.null
    · subst hvn
      rfl
    · rw [tokenUpdate_some_eq prev v hvn, hv]
      simp
  · intro prev n v hv hn
    have hvn : v ≠ Json.null := by
      intro h
      rw [h] at hv
      simp [jsToNumber] at hv
      omega
    rw [tokenUpdate_some_eq prev v hvn, hv]
    simp [hn]

/-- C7 (amended) witness: concrete instances of every conditional part of
`message_delta_usage_update`. -/
theorem message_delta_usage_update_witness :
    tokenUpdate 7 (some (Json.str "abc")) = 7 ∧
    tokenUpdate 7 (some (Json.num 0)) = 7 ∧
    tokenUpdate 7 (some (Json.num 9)) = 9 :=
  ⟨message_delta_usage_update.2.2.1 7 (Json.str "abc") (by decide),
   message_delta_usage_update.2.2.2.1 7 (Json.num 0) (by decide),
   message_delta_usage_update.2.2.2.2.1 7 9 (Json.num 9) (by decide) (by decide)⟩

/-! ## Claim C9: the prompt preview -/

/-- Inside a whitespace run (or not), every whitespace character the
collapser emits is the single space. -/
theorem collapseWSAux_ws_is_space :
    ∀ (cs : List Char) (b : Bool) (c : Char),
      c ∈ collapseWSAux b cs → jsWhitespace c → c = ' ' := by
  intro cs
  induction cs with
  | nil => intro b c hc; simp [collapseWSAux] at hc
  | cons c0 rest ih =>
    intro b c hc hws
    by_cases h0 : jsWhitespace c0
    · cases b with
      | true =>
        simp only [collapseWSAux, h0, if_true] at hc
        exact ih true c hc hws
      | false =>
        simp only [collapseWSAux, h0, if_true] at hc
        rcases List.mem_cons.mp hc with h | h
        · exact h
        · exact ih true c h hws
    · simp only [collapseWSAux, h0, Bool.false_eq_true, if_false] at hc
      rcases List.mem_cons.mp hc with h | h
      · subst h
        exact absurd hws (by simp [h0])
      · exact ih false c h hws

set_option maxRecDepth 40000 in
/-- C9 counterexample: on the main runtime (src/index.ts line 122) the
preview of a 281-character prompt is the full 281 characters with no
ellipsis; the part_000 variant (line 135) truncates it to 280 plus `…`,
which is what the claim describes.  The claim fails on the main runtime. -/
theorem prompt_preview_not_truncated_counterexample :
    promptPreview (some (Json.obj [("messages", Json.arr [Json.obj
        [("role", Json.str "user"), ("content", Json.arr [Json.obj
          [("type", Json.str "text"),
           ("text", Json.str (String.mk (List.replicate 281 'a')))]])]])]))
      = some (List.replicate 281 'a') ∧
    (List.replicate 281 'a').length = 281 ∧
    promptPreviewV0 (some (Json.obj [("messages", Json.arr [Json.obj
        [("role", Json.str "user"), ("content", Json.arr [Json.obj
          [("type", Json.str "text"),
           ("text", Json.str (String.mk (List.replicate 281 'a')))]])]])]))
      = some (List.replicate 280 'a' ++ ['…']) ∧
    some (List.replicate 281 'a') ≠ some (List.replicate 280 'a' ++ ['…']) := by
  refine ⟨by decide, by decide, by decide, by decide⟩

/-- C9 (amended): the main runtime's preview is the first user text block
with whitespace runs collapsed to single spaces and NO truncation; the
truncation-with-ellipsis behaviour the claim describes is the part_000
variant's, which cuts at 280 characters exactly when the collapsed text
is longer. -/
theorem prompt_preview_collapsed_untruncated :
    (∀ (parsed : Option Json) (s : List Char), promptSource parsed = some s →
      promptPreview parsed = some (collapseWS s) ∧
      promptPreviewV0 parsed = some (truncate 280 (collapseWS s))) ∧
    (∀ cs : List Char, 280 < cs.length →
      truncate 280 cs = cs.take 280 ++ ['…']) ∧
    (∀ cs : List Char, cs.length ≤ 280 → truncate 280 cs = cs) ∧
    (∀ (cs : List Char) (c : Char), c ∈ collapseWS cs → jsWhitespace c → c = ' ') := by
  refine ⟨?_, ?_, ?_, ?_⟩
  · intro parsed s hs
    unfold promptPreview promptPreviewV0
    rw [hs]
    exact ⟨rfl, rfl⟩
  · intro cs h
    unfold truncate
    rw [if_neg (by omega)]
  · intro cs h
    unfold truncate
    rw [if_pos h]
  · intro cs c hc hws
    exact collapseWSAux_ws_is_space cs false c hc hws

/-- C9 (amended) witness: a concrete two-space prompt collapses to one
space with no cut, via `prompt_preview_collapsed_untruncated`. -/
theorem prompt_preview_collapsed_untruncated_witness :
    promptPreview (some (Json.obj [("messages", Json.arr [Json.obj
        [("role", Json.str "user"), ("content", Json.arr [Json.obj
          [("type", Json.str "text"), ("text", Json.str "hi  there")]])]])]))
      = some (collapseWS "hi  there".toList) ∧
    truncate 280 ("hi there".toList) = "hi there".toList :=
  ⟨(prompt_preview_collapsed_untruncated.1 _ "hi  there".toList (by decide)).1,
   prompt_preview_collapsed_untruncated.2.2.1 "hi there".toList (by decide)⟩

/-! ## Claim C4: emission order of a non-streaming request -/

theorem toolRecords_action (traceId : String) (requestJson : Option Json) :
    ∀ r ∈ toolRecords traceId requestJson,
      r.action = "request_tool" ∧ r.traceId = traceId := by
  intro r hr
  rcases requestJson with _ | j
  · simp [toolRecords] at hr
  have hred : toolRecords traceId (some j) =
      (if ¬jsTruthy j = true then []
       else match jsGet j "tools" with
         | some (Json.arr ts) =>
           (ts.filter fun t => jsTruthy t && jsTypeofObject t).map
             (fun _ => ({ action := "request_tool", traceId := traceId } : EmitRec))
         | _ => []) := rfl
  rw [hred] at hr
  by_cases ht : jsTruthy j = true
  · rw [if_neg (by simp [ht])] at hr
    rcases hg : jsGet j "tools" with _ | u
    · rw [hg] at hr
      simp at hr
    · rw [hg] at hr
      cases u with
      | arr ts =>
        simp only [List.mem_map] at hr
        obtain ⟨t, ht2, rfl⟩ := hr
        exact ⟨rfl, rfl⟩
      | null => simp at hr
      | bool b => simp at hr
      | num n => simp at hr
      | str s => simp at hr
      | obj fs => simp at hr
  · rw [if_pos ht] at hr
    simp at hr

/-- C4 counterexample: for a concrete non-streaming request the emission
order is `request_received`, `response_headers`, `request_rollup`,
`response_body` — the rollup is logged synchronously before the detached
body capture finishes, so the claimed order (body before rollup) fails. -/
theorem rollup_before_body_counterexample :
    fetchSuccessEmits "t" none true false [] =
      [⟨"request_received", "t"⟩, ⟨"response_headers", "t"⟩,
       ⟨"request_rollup", "t"⟩, ⟨"response_body", "t"⟩] ∧
    fetchSuccessEmits "t" none true false [] ≠
      [⟨"request_received", "t"⟩, ⟨"response_headers", "t"⟩,
       ⟨"response_body", "t"⟩, ⟨"request_rollup", "t"⟩] := by
  refine ⟨by decide, by decide⟩

/-- C4 (amended): a completed non-streaming request with a body emits
exactly one `request_received`, one `response_headers`, one
`request_rollup` and one `response_body`, all with the request's trace
id, in that order (tool records in between): the rollup comes right
after the response headers, and the `response_body` record — emitted only
after the buffered body is fully read — comes last. -/
theorem non_streaming_emission_order (traceId : String) (requestJson : Option Json) :
    fetchSuccessEmits traceId requestJson true false [] =
      [⟨"request_received", traceId⟩] ++ toolRecords traceId requestJson ++
        [⟨"response_headers", traceId⟩, ⟨"request_rollup", traceId⟩,
         ⟨"response_body", traceId⟩] ∧
    ((fetchSuccessEmits traceId requestJson true false []).filter
      (fun r => r.action == "request_received")).length = 1 ∧
    ((fetchSuccessEmits traceId requestJson true false []).filter
      (fun r => r.action == "response_headers")).length = 1 ∧
    ((fetchSuccessEmits traceId requestJson true false []).filter
      (fun r => r.action == "request_rollup")).length = 1 ∧
    ((fetchSuccessEmits traceId requestJson true false []).filter
      (fun r => r.action == "response_body")).length = 1 ∧
    (∀ r ∈ fetchSuccessEmits traceId requestJson true false [],
      r.traceId = traceId) := by
  have hshape : fetchSuccessEmits traceId requestJson true false [] =
      [⟨"request_received", traceId⟩] ++ toolRecords traceId requestJson ++
        [⟨"response_headers", traceId⟩, ⟨"request_rollup", traceId⟩,
         ⟨"response_body", traceId⟩] := by
    unfold fetchSuccessEmits
    simp
  have htools : ∀ (a : String), a ≠ "request_tool" →
      (toolRecords traceId requestJson).filter (fun r => r.action == a) = [] := by
    intro a ha
    rw [List.filter_eq_nil_iff]
    intro r hr
    have := (toolRecords_action traceId requestJson r hr).1
    simp [this, ha.symm]
  refine ⟨hshape, ?_, ?_, ?_, ?_, ?_⟩
  · rw [hshape]
    simp only [List.filter_append, List.length_append,
      htools "request_received" (by decide)]
    rfl
  · rw [hshape]
    simp only [List.filter_append, List.length_append,
      htools "response_headers" (by decide)]
    rfl
  · rw [hshape]
    simp only [List.filter_append, List.length_append,
      htools "request_rollup" (by decide)]
    rfl
  · rw [hshape]
    simp only [List.filter_append, List.length_append,
      htools "response_body" (by decide)]
    rfl
  · rw [hshape]
    intro r hr
    simp only [List.mem_append, List.mem_cons, List.not_mem_nil, or_false] at hr
    rcases hr with (h | h) | h | h | h
    · rw [h]
    · exact (toolRecords_action traceId requestJson r h).2
    · rw [h]
    · rw [h]
    · rw [h]

/-- C4 (amended) witness: concrete instance of
`non_streaming_emission_order`. -/
theorem non_streaming_emission_order_witness :
    (∀ r ∈ fetchSuccessEmits "abc" none true false [], r.traceId = "abc") ∧
    ((fetchSuccessEmits "abc" none true false []).filter
      (fun r => r.action == "request_rollup")).length = 1 :=
  ⟨(non_streaming_emission_order "abc" none).2.2.2.2.2,
   (non_streaming_emission_order "abc" none).2.2.2.1⟩

/-! ## Claim C6: data joining, comments, and the default event name -/

/-- Two candidate prefixes with different head characters cannot both be
prefixes of the same line. -/
theorem isPrefixOf_head_ne {c1 c2 : Char} {t1 t2 l : List Char}
    (hne : c1 ≠ c2) (h : (c1 :: t1).isPrefixOf l) :
    (c2 :: t2).isPrefixOf l = false := by
  cases l with
  | nil => simp [List.isPrefixOf] at h
  | cons a as =>
    simp only [List.isPrefixOf, Bool.and_eq_true, beq_iff_eq] at h
    simp only [List.isPrefixOf, Bool.and_eq_false_iff]
    left
    have hca : c2 ≠ a := fun hca => hne (by rw [h.1, hca])
    simp [hca]

/-- One fold step never removes accumulated data lines, and appends
exactly the value of a `data:` line. -/
theorem frameLineStep_dataLines (st : FrameData) (l : List Char) :
    (frameLineStep st l).dataLines =
      st.dataLines ++
        (if ("data:".toList.isPrefixOf l && !(":".toList.isPrefixOf l) : Bool)
         then [jsTrimStart (l.drop 5)] else []) := by
  unfold frameLineStep
  by_cases hc : (":".toList.isPrefixOf l : Bool) = true
  · have hd : ("data:".toList.isPrefixOf l : Bool) = false :=
      isPrefixOf_head_ne (by decide) hc
    rw [if_pos hc, hd]
    simp
  · rw [if_neg hc]
    by_cases he : ("event:".toList.isPrefixOf l : Bool) = true
    · have hd : ("data:".toList.isPrefixOf l : Bool) = false :=
        isPrefixOf_head_ne (by decide) he
      rw [if_pos he, hd]
      simp
    · rw [if_neg he]
      by_cases hi : ("id:".toList.isPrefixOf l : Bool) = true
      · have hd : ("data:".toList.isPrefixOf l : Bool) = false :=
          isPrefixOf_head_ne (by decide) hi
        rw [if_pos hi, hd]
        simp
      · rw [if_neg hi]
        by_cases hd : ("data:".toList.isPrefixOf l : Bool) = true
        · have hc' : (":".toList.isPrefixOf l : Bool) = false :=
            eq_false_of_ne_true hc
          rw [if_pos hd, hd, hc']
          simp
        · have hd' : ("data:".toList.isPrefixOf l : Bool) = false :=
            eq_false_of_ne_true hd
          rw [if_neg hd, hd']
          simp

theorem foldl_frameLineStep_dataLines (lines : List (List Char)) :
    ∀ st : FrameData,
      (lines.foldl frameLineStep st).dataLines =
        st.dataLines ++
          ((lines.filter (fun l => "data:".toList.isPrefixOf l)).map
            (fun l => jsTrimStart (l.drop 5))) := by
  induction lines with
  | nil => intro st; simp
  | cons l ls ih =>
    intro st
    simp only [List.foldl_cons, ih (frameLineStep st l), frameLineStep_dataLines]
    by_cases hd : ("data:".toList.isPrefixOf l : Bool) = true
    · have hc : (":".toList.isPrefixOf l : Bool) = false :=
        isPrefixOf_head_ne (by decide) hd
      rw [List.filter_cons_of_pos hd]
      rw [hd, hc]
      simp
    · have hd' : ("data:".toList.isPrefixOf l : Bool) = false :=
        eq_false_of_ne_true hd
      rw [List.filter_cons_of_neg
        (by simp; exact fun hp => hd (List.isPrefixOf_iff_prefix.mpr hp))]
      rw [hd']
      simp

/-- A comment line leaves the accumulator untouched. -/
theorem frameLineStep_comment (st : FrameData) (l : List Char)
    (h : (":".toList.isPrefixOf l : Bool) = true) : frameLineStep st l = st := by
  unfold frameLineStep
  rw [if_pos h]

theorem foldl_frameLineStep_no_comments (lines : List (List Char)) :
    ∀ st : FrameData,
      (lines.filter (fun l => !(":".toList.isPrefixOf l))).foldl frameLineStep st =
        lines.foldl frameLineStep st := by
  induction lines with
  | nil => intro st; rfl
  | cons l ls ih =>
    intro st
    by_cases hc : (":".toList.isPrefixOf l : Bool) = true
    · rw [List.filter_cons_of_neg (by simp; exact List.isPrefixOf_iff_prefix.mp hc)]
      rw [List.foldl_cons, frameLineStep_comment st l hc]
      exact ih st
    · rw [List.filter_cons_of_pos (by simp; exact eq_false_of_ne_true hc)]
      rw [List.foldl_cons, List.foldl_cons]
      exact ih (frameLineStep st l)

/-- If every `event:` line of the scan has an empty trimmed value, the
event name stays `message`. -/
theorem foldl_frameLineStep_eventName (lines : List (List Char)) :
    ∀ st : FrameData,
      (∀ l ∈ lines, ("event:".toList.isPrefixOf l : Bool) = true →
        jsTrim (l.drop 6) = []) →
      st.eventName = "message".toList →
      (lines.foldl frameLineStep st).eventName = "message".toList := by
  induction lines with
  | nil => intro st _ hst; exact hst
  | cons l ls ih =>
    intro st hall hst
    rw [List.foldl_cons]
    refine ih (frameLineStep st l) (fun x hx hex => hall x (List.mem_cons_of_mem l hx) hex) ?_
    unfold frameLineStep
    by_cases hc : (":".toList.isPrefixOf l : Bool) = true
    · rw [if_pos hc]
      exact hst
    rw [if_neg hc]
    by_cases he : ("event:".toList.isPrefixOf l : Bool) = true
    · rw [if_pos he]
      have := hall l (List.mem_cons_self l ls) he
      simp [this]
    rw [if_neg he]
    by_cases hi : ("id:".toList.isPrefixOf l : Bool) = true
    · rw [if_pos hi]
      exact hst
    rw [if_neg hi]
    by_cases hd : ("data:".toList.isPrefixOf l : Bool) = true
    · rw [if_pos hd]
      exact hst
    · rw [if_neg hd]
      exact hst

/-- C6: for every frame, (a) the emitted data payload is the `data:`
line values (`slice(5).trimStart()`) joined with `\n` in original order;
(b) comment lines (leading `:`) are ignored — removing them does not
change the parse; (c) if the frame has no `event:` line with a non-empty
trimmed value (in particular, no `event:` line at all), the frame is
reported with event name `message`. -/
theorem sse_frame_fields (frame : List Char) :
    frameData (parseFrame frame) =
      List.intercalate ['\n']
        (((splitLines frame).filter (fun l => "data:".toList.isPrefixOf l)).map
          (fun l => jsTrimStart (l.drop 5))) ∧
    ((splitLines frame).filter (fun l => !(":".toList.isPrefixOf l))).foldl
        frameLineStep initFrame = parseFrame frame ∧
    ((∀ l ∈ splitLines frame, ("event:".toList.isPrefixOf l : Bool) = true →
        jsTrim (l.drop 6) = []) →
      (parseFrame frame).eventName = "message".toList) := by
  refine ⟨?_, ?_, ?_⟩
  · unfold frameData parseFrame
    rw [foldl_frameLineStep_dataLines (splitLines frame) initFrame]
    rfl
  · exact foldl_frameLineStep_no_comments (splitLines frame) initFrame
  · intro hall
    exact foldl_frameLineStep_eventName (splitLines frame) initFrame hall rfl

/-- C6 witness: a concrete frame with a comment and two data lines, via
`sse_frame_fields`. -/
theorem sse_frame_fields_witness :
    frameData (parseFrame (": c\ndata: a\ndata:b\nevent: ping".toList)) = "a\nb".toList ∧
    (parseFrame ("data: x\nid: 3".toList)).eventName = "message".toList := by
  constructor
  · rw [(sse_frame_fields (": c\ndata: a\ndata:b\nevent: ping".toList)).1]
    decide
  · exact (sse_frame_fields ("data: x\nid: 3".toList)).2.2 (by decide)

/-! ## Claim C5: the frame decoder is chunking-invariant

The scan of `splitFrames` is stable under appending more input: a
separator match never changes, and a failed match position before a
later separator stays failed.  This gives `splitFrames (x ++ y)` in
terms of `splitFrames x`, and from it chunking-invariance of the whole
decoder. -/

theorem matchNL_cons_cons (c1 c2 : Char) (t : List Char) :
    matchNL (c1 :: c2 :: t) =
      (if c1 = '\r' then (if c2 = '\n' then some t else none)
       else if c1 = '\n' then some (c2 :: t) else none) := rfl

theorem matchNL_some_append {cs r : List Char} (y : List Char)
    (h : matchNL cs = some r) : matchNL (cs ++ y) = some (r ++ y) := by
  match cs with
  | [] => simp [matchNL] at h
  | [c] =>
    by_cases hc : c = '\n'
    · subst hc
      simp only [matchNL, if_true, Option.some.injEq] at h
      subst h
      cases y with
      | nil => rfl
      | cons y1 ys =>
        rw [List.singleton_append, matchNL_cons_cons]
        rw [if_neg (by decide), if_pos rfl]
        rfl
    · simp [matchNL, hc] at h
  | c1 :: c2 :: t =>
    rw [matchNL_cons_cons] at h
    rw [List.cons_append, List.cons_append, matchNL_cons_cons]
    by_cases h1 : c1 = '\r'
    · rw [if_pos h1] at h ⊢
      by_cases h2 : c2 = '\n'
      · rw [if_pos h2] at h ⊢
        injection h with h
        subst h
        rfl
      · rw [if_neg h2] at h
        exact absurd h (by simp)
    · rw [if_neg h1] at h ⊢
      by_cases h2 : c1 = '\n'
      · rw [if_pos h2] at h ⊢
        injection h with h
        subst h
        rfl
      · rw [if_neg h2] at h
        exact absurd h (by simp)

theorem matchSep_some_append {cs r : List Char} (y : List Char)
    (h : matchSep cs = some r) : matchSep (cs ++ y) = some (r ++ y) := by
  simp only [matchSep, Option.bind_eq_some] at h
  obtain ⟨mid, h1, h2⟩ := h
  simp only [matchSep, Option.bind_eq_some]
  exact ⟨mid ++ y, matchNL_some_append y h1, matchNL_some_append y h2⟩

theorem matchSep_none_append4 {a b c d : Char} {t : List Char} (y : List Char)
    (h : matchSep (a :: b :: c :: d :: t) = none) :
    matchSep ((a :: b :: c :: d :: t) ++ y) = none := by
  simp only [matchSep, List.cons_append, matchNL_cons_cons] at h ⊢
  by_cases h1 : a = '\r'
  · by_cases h2 : b = '\n'
    · rw [if_pos h1, if_pos h2] at h ⊢
      simp only [Option.some_bind] at h ⊢
      rw [matchNL_cons_cons] at h ⊢
      split_ifs at h ⊢ <;> simp_all
    · rw [if_pos h1, if_neg h2] at h ⊢
      rfl
  · by_cases h2 : a = '\n'
    · rw [if_neg h1, if_pos h2] at h ⊢
      simp only [Option.some_bind] at h ⊢
      rw [matchNL_cons_cons] at h ⊢
      split_ifs at h ⊢ <;> simp_all
    · rw [if_neg h1, if_neg h2] at h ⊢
      rfl

/-- The only two-character separator match is `"\n\n"`. -/
theorem matchSep_pair {r1 r2 : Char} {a : List Char}
    (h : matchSep [r1, r2] = some a) : r1 = '\n' ∧ r2 = '\n' ∧ a = [] := by
  simp only [matchSep, matchNL_cons_cons] at h
  by_cases h1 : r1 = '\r'
  · by_cases h2 : r2 = '\n'
    · rw [if_pos h1, if_pos h2] at h
      simp [matchNL] at h
    · rw [if_pos h1, if_neg h2] at h
      simp at h
  · by_cases h2 : r1 = '\n'
    · rw [if_neg h1, if_pos h2] at h
      simp only [Option.some_bind, matchNL] at h
      split at h
      · rename_i hr2
        refine ⟨h2, hr2, ?_⟩
        injection h with h
        exact h.symm
      · simp at h
    · rw [if_neg h1, if_neg h2] at h
      simp at h

theorem matchNL_min_length {cs r : List Char} (h : matchNL cs = some r) :
    1 ≤ cs.length := by
  match cs with
  | [] => simp [matchNL] at h
  | c :: t => simp

theorem matchSep_min_length {cs r : List Char} (h : matchSep cs = some r) :
    2 ≤ cs.length := by
  simp only [matchSep, Option.bind_eq_some] at h
  obtain ⟨mid, h1, h2⟩ := h
  have hm := matchNL_length h1
  have := matchNL_min_length h2
  omega

theorem findSep_min_length {cs : List Char} {p : List Char × List Char}
    (h : findSep cs = some p) : 2 ≤ cs.length := by
  induction cs generalizing p with
  | nil => simp [findSep] at h
  | cons c rest ih =>
    simp only [findSep] at h
    split at h
    · rename_i after hm
      exact matchSep_min_length hm
    · simp only [Option.map_eq_some'] at h
      obtain ⟨q, hf, _⟩ := h
      have := ih hf
      simp only [List.length_cons]
      omega

/-- A single character never matches the two-newline separator. -/
theorem matchSep_single (c : Char) : matchSep [c] = none := by
  by_cases hc : c = '
'
  · subst hc
    rfl
  · simp [matchSep, matchNL, hc]

/-- Lists of length < 2 contain no separator. -/
theorem findSep_short (cs : List Char) (h : cs.length < 2) : findSep cs = none := by
  match cs with
  | [] => rfl
  | [c] =>
    simp only [findSep, matchSep_single]
    rfl
  | c1 :: c2 :: t => exact absurd h (by simp)

/-- The leftmost separator of `x` is still the leftmost separator of
`x ++ y`: every scan position of `x` before it fails stably. -/
theorem findSep_append_some :
    ∀ {x : List Char} {u v : List Char} (y : List Char),
      findSep x = some (u, v) → findSep (x ++ y) = some (u, v ++ y) := by
  intro x
  induction x with
  | nil => intro u v y h; simp [findSep] at h
  | cons c rest ih =>
    intro u v y h
    simp only [findSep] at h
    rw [List.cons_append]
    cases hm : matchSep (c :: rest) with
    | some after =>
      rw [hm] at h
      simp only [Option.some.injEq, Prod.mk.injEq] at h
      obtain ⟨h1, h2⟩ := h
      subst h1
      subst h2
      have := matchSep_some_append y hm
      rw [List.cons_append] at this
      simp only [findSep, this]
    | none =>
      rw [hm] at h
      simp only [Option.map_eq_some'] at h
      obtain ⟨⟨u2, v2⟩, hf, heq⟩ := h
      simp only [Prod.mk.injEq] at heq
      obtain ⟨h1, h2⟩ := heq
      subst h1
      subst h2
      have hrest2 : 2 ≤ rest.length := findSep_min_length hf
      have hm2 : matchSep (c :: (rest ++ y)) = none := by
        match rest, hrest2 with
        | r1 :: r2 :: r3 :: t2, _ =>
          exact matchSep_none_append4 (t := t2) y hm
        | [r1, r2], _ =>
          have hsep : matchSep [r1, r2] = some [] ∨ findSep [r1, r2] = none := by
            cases hs : matchSep [r1, r2] with
            | some a =>
              obtain ⟨_, _, ha⟩ := matchSep_pair hs
              subst ha
              exact Or.inl rfl
            | none =>
              right
              simp [findSep, hs, matchSep_single]
          rcases hsep with hs | hs
          · obtain ⟨e1, e2, _⟩ := matchSep_pair hs
            subst e1
            subst e2
            have hc1 : c ≠ '\r' := by
              intro hc
              subst hc
              simp [matchSep, matchNL_cons_cons, matchNL] at hm
            have hc2 : c ≠ '\n' := by
              intro hc
              subst hc
              simp [matchSep, matchNL_cons_cons, matchNL] at hm
            simp [matchSep, List.cons_append, matchNL_cons_cons, hc1, hc2]
          · rw [hs] at hf
            simp at hf
      simp only [findSep, hm2]
      rw [ih y hf]
      rfl

/-- Splitting `x ++ y` splits `x` first and then rescans the leftover
buffer of `x` with `y` appended. -/
theorem splitFrames_append (x y : List Char) :
    splitFrames (x ++ y) =
      ((splitFrames x).1 ++ (splitFrames ((splitFrames x).2 ++ y)).1,
       (splitFrames ((splitFrames x).2 ++ y)).2) := by
  have main : ∀ (n : Nat) (x : List Char), x.length ≤ n → ∀ y : List Char,
      splitFrames (x ++ y) =
        ((splitFrames x).1 ++ (splitFrames ((splitFrames x).2 ++ y)).1,
         (splitFrames ((splitFrames x).2 ++ y)).2) := by
    intro n
    induction n with
    | zero =>
      intro x hx y
      have : x = [] := List.eq_nil_of_length_eq_zero (Nat.le_zero.mp hx)
      subst this
      simp [splitFrames, splitFramesFuel, findSep]
    | succ n ih =>
      intro x hx y
      cases hf : findSep x with
      | none =>
        have hsx : splitFrames x = ([], x) := by
          rw [splitFrames_eq, hf]
        rw [hsx]
        simp
      | some p =>
        obtain ⟨u, v⟩ := p
        have hsx : splitFrames x = (u :: (splitFrames v).1, (splitFrames v).2) := by
          rw [splitFrames_eq, hf]
        have hfy : findSep (x ++ y) = some (u, v ++ y) := findSep_append_some y hf
        have hsxy : splitFrames (x ++ y) =
            (u :: (splitFrames (v ++ y)).1, (splitFrames (v ++ y)).2) := by
          rw [splitFrames_eq, hfy]
        have hv : v.length ≤ n := by
          have := findSep_length hf
          omega
        rw [hsxy, hsx, ih v hv y]
        simp
  exact main x.length x (le_refl _) y

/-- Processing a concatenation of frame lists chains the core state and
concatenates the emissions. -/
theorem processFrames_append (p1 p2 : List (List Char)) :
    ∀ core : DecodeCore,
      processFrames core (p1 ++ p2) =
        ((processFrames (processFrames core p1).1 p2).1,
         (processFrames core p1).2 ++ (processFrames (processFrames core p1).1 p2).2) := by
  induction p1 with
  | nil => intro core; simp [processFrames]
  | cons f fs ih =>
    intro core
    rw [List.cons_append]
    simp only [processFrames]
    rw [ih]
    simp

/-- Two consecutive chunks are processed exactly like their
concatenation: the heart of C5. -/
theorem processChunk_merge (st : SSEState) (c1 c2 : List Char) :
    ((processChunk (processChunk st c1).1 c2).1,
      (processChunk st c1).2 ++ (processChunk (processChunk st c1).1 c2).2) =
    processChunk st (c1 ++ c2) := by
  simp only [processChunk]
  have hsplit := splitFrames_append (st.buffer ++ c1) c2
  rw [List.append_assoc] at hsplit
  rw [hsplit]
  rw [processFrames_append]
  simp [List.map_append, Nat.add_assoc]

/-- Chunk boundaries are invisible: a chunk list is processed exactly
like the single chunk made of its concatenation. -/
theorem runSSE_flatten (chunks : List (List Char)) (st : SSEState) :
    runSSE st chunks =
      (if chunks.isEmpty then (st, []) else runSSE st [chunks.flatten]) := by
  cases chunks with
  | nil => simp [runSSE]
  | cons c cs =>
    simp only [List.isEmpty_cons, if_false]
    induction cs generalizing c st with
    | nil => simp [runSSE]
    | cons c2 cs2 ih =>
      have step : runSSE st (c :: c2 :: cs2) = runSSE st ((c ++ c2) :: cs2) := by
        simp only [runSSE]
        rw [← processChunk_merge st c c2]
        simp [List.append_assoc]
      rw [step, ih st (c ++ c2)]
      simp [List.flatten_cons, List.append_assoc]

/-- Number a list of items consecutively starting at `n`. -/
def numberFrom {α : Type} : Nat → List α → List (Nat × α)
  | _, [] => []
  | n, x :: xs => (n, x) :: numberFrom (n + 1) xs

/-- One pass over the split-off frames emits exactly the non-blank
frames, parsed, numbered consecutively from the current sequence plus
one. -/
theorem processFrames_numbered (parts : List (List Char)) :
    ∀ core : DecodeCore,
      (processFrames core parts).2 =
        numberFrom (core.sequence + 1)
          ((parts.filter (fun p => !(jsTrim p).isEmpty)).map parseFrame) ∧
      ((processFrames core parts).1).sequence =
        core.sequence + (parts.filter (fun p => !(jsTrim p).isEmpty)).length := by
  induction parts with
  | nil => intro core; simp [processFrames, numberFrom]
  | cons p ps ih =>
    intro core
    by_cases hb : jsTrim p = []
    · have hstep : processFrame core p = (core, none) := by
        unfold processFrame
        rw [if_pos hb]
      have hfilter : (p :: ps).filter (fun p => !(jsTrim p).isEmpty) =
          ps.filter (fun p => !(jsTrim p).isEmpty) := by
        rw [List.filter_cons_of_neg]
        simp [hb]
      simp only [processFrames, hstep, hfilter, Option.toList_none,
        List.nil_append]
      exact ih core
    · have hstep : processFrame core p =
          ((processFrame core p).1, some (core.sequence + 1, parseFrame p)) := by
        unfold processFrame
        rw [if_neg hb]
      have hseq : ((processFrame core p).1).sequence = core.sequence + 1 := by
        unfold processFrame
        rw [if_neg hb]
      have hfilter : (p :: ps).filter (fun p => !(jsTrim p).isEmpty) =
          p :: ps.filter (fun p => !(jsTrim p).isEmpty) := by
        rw [List.filter_cons_of_pos]
        simp [hb]
      obtain ⟨ih1, ih2⟩ := ih ((processFrame core p).1)
      constructor
      · simp only [processFrames, hfilter, List.map_cons, numberFrom]
        rw [hstep]
        simp only [Option.toList_some, List.cons_append, List.nil_append]
        rw [ih1, hseq]
      · simp only [processFrames, hfilter]
        rw [ih2, hseq]
        simp only [List.length_cons]
        omega

/-- C5: over ANY chunking of the byte stream, the decoder emits exactly
one frame per blank-line-delimited non-whitespace frame of the whole
input, numbered consecutively from 1, and the trailing incomplete frame
stays in the buffer, never emitted. -/
theorem sse_decoder_chunking_invariant (chunks : List (List Char)) :
    (runSSE initSSE chunks).2 =
      numberFrom 1
        (((splitFrames chunks.flatten).1.filter
          (fun p => !(jsTrim p).isEmpty)).map parseFrame) ∧
    ((runSSE initSSE chunks).1).buffer = (splitFrames chunks.flatten).2 := by
  rw [runSSE_flatten]
  cases chunks with
  | nil =>
    constructor
    · rfl
    · rfl
  | cons c cs =>
    simp only [List.isEmpty_cons, if_false, Bool.false_eq_true]
    have hrun : runSSE initSSE [(c :: cs).flatten] =
        ((processChunk initSSE ((c :: cs).flatten)).1,
          (processChunk initSSE ((c :: cs).flatten)).2) := by
      simp [runSSE]
    rw [hrun]
    have hchunk := processFrames_numbered
      (splitFrames (initSSE.buffer ++ (c :: cs).flatten)).1 initSSE.core
    constructor
    · simp only [processChunk]
      rw [hchunk.1]
      rfl
    · simp only [processChunk]
      rfl

end ClaudeProxy
